import Mathlib

/-!
Shallow embedding of the mslearn-ai-vision lab scripts, centered on the
remote-job watcher of
`Labfiles/image-classification/python/train-classifier/train-classifier.py`
(`Train_Model`, lines 138-158), the prediction filters of
`test-classifier.py` and `test-detector.py`, and the tagged-image upload of
`Labfiles/object-detection/python/train-detector/add-tagged-images.py`
(`Upload_Images`).
-/

deriving instance DecidableEq for Except

namespace MSLearn

/-- Status strings reported by the Custom Vision service for a training
iteration (an open-ended, provider-defined vocabulary). -/
abbrev Status := String

/-- The single terminal status recognized by the watch loop: the guard at
line 146 of train-classifier.py is `iteration.status != "Completed"`. -/
def terminalStatus : Status := "Completed"

/-- The operations the training scripts perform on the remote Custom Vision
project or one of its training iterations (the job). -/
inductive JobOp where
  | trainProject
  | getIteration
  | getTags
  | createImagesFromData
  | createImagesFromFiles
deriving DecidableEq

/-- Whether a job operation only reads remote state: `get_iteration` and
`get_tags` are queries; the other calls mutate the remote project. -/
def JobOp.isReadOnly : JobOp → Bool
  | .getIteration => true
  | .getTags => true
  | _ => false

/-- Observable events of the watch loop of `Train_Model`:
a call on the remote job, one of the two print statements of the loop, or a
`time.sleep`.  `statusLine s` is `print(iteration.status, '...')` (line 151),
which writes the text `s ++ " ..."`; `doneLine` is `print("Model trained!")`
(line 158), which writes the text `"Model trained!"`. -/
inductive Event where
  | jobOp (op : JobOp)
  | statusLine (s : Status)
  | doneLine
  | sleep (seconds : Nat)
deriving DecidableEq

/-- The console text written by an event, if any. -/
def Event.rendered : Event → Option String
  | .statusLine s => some (s ++ " ...")
  | .doneLine => some "Model trained!"
  | _ => none

/-- The console lines written by a trace of events, in order. -/
def printedLines (t : List Event) : List String :=
  t.filterMap Event.rendered

/-- The events of one iteration of the while body (lines 146-155): poll via
`get_iteration`, print the polled status followed by "...", sleep 5 seconds. -/
def cycleEvents (s : Status) : List Event :=
  [Event.jobOp JobOp.getIteration, Event.statusLine s, Event.sleep 5]

/-- Fuel-indexed embedding of the watch loop of `Train_Model` (lines 146-158):

    while (iteration.status != "Completed"):
        iteration = training_client.get_iteration(custom_vision_project.id, iteration.id)
        print(iteration.status, '...')
        time.sleep(5)
    print("Model trained!")

`cur` is the status currently held in `iteration.status`, `stream n` is the
result of the n-th `get_iteration` call (a status, or a raised transport
error of type `E`), and `fuel` bounds how many steps are unrolled.  The
result is the list of events performed together with the outcome when the
loop finishes within the fuel: `some (Except.ok ())` for a normal return,
`some (Except.error e)` when a poll raised `e` (there is no try/except in
`Train_Model`, so the error propagates at once), `none` when the fuel ran
out before the loop finished. -/
def watchFuel {E : Type} (stream : Nat → Except E Status) :
    Status → Nat → Nat → List Event × Option (Except E Unit)
  | _, _, 0 => ([], none)
  | cur, i, fuel + 1 =>
    if cur = terminalStatus then
      ([Event.doneLine], some (Except.ok ()))
    else
      match stream i with
      | Except.error e => ([Event.jobOp JobOp.getIteration], some (Except.error e))
      | Except.ok s =>
        let rest := watchFuel stream s (i + 1) fuel
        (cycleEvents s ++ rest.1, rest.2)

/-- Counts the `get_iteration` calls in a trace. -/
def isPoll : Event → Bool
  | .jobOp op => op = JobOp.getIteration
  | _ => false

/-- A printed status line (from `print(iteration.status, '...')`). -/
def isStatusLine : Event → Bool
  | .statusLine _ => true
  | _ => false

/-- A printed status line for a non-terminal status. -/
def isNonTerminalStatusLine : Event → Bool
  | .statusLine s => s ≠ terminalStatus
  | _ => false

/-- The completion line `print("Model trained!")`. -/
def isDoneLine : Event → Bool
  | .doneLine => true
  | _ => false

theorem watchFuel_zero {E : Type} (stream : Nat → Except E Status)
    (cur : Status) (i : Nat) :
    watchFuel stream cur i 0 = ([], none) := rfl

theorem watchFuel_terminal {E : Type} (stream : Nat → Except E Status)
    {cur : Status} (i fuel : Nat) (h : cur = terminalStatus) :
    watchFuel stream cur i (fuel + 1) = ([Event.doneLine], some (Except.ok ())) := by
  simp [watchFuel, h]

theorem watchFuel_err {E : Type} {stream : Nat → Except E Status}
    {cur : Status} {i : Nat} (fuel : Nat) {e : E}
    (h : cur ≠ terminalStatus) (hs : stream i = Except.error e) :
    watchFuel stream cur i (fuel + 1) =
      ([Event.jobOp JobOp.getIteration], some (Except.error e)) := by
  simp [watchFuel, h, hs]

theorem watchFuel_ok {E : Type} {stream : Nat → Except E Status}
    {cur : Status} {i : Nat} (fuel : Nat) {s : Status}
    (h : cur ≠ terminalStatus) (hs : stream i = Except.ok s) :
    watchFuel stream cur i (fuel + 1) =
      (cycleEvents s ++ (watchFuel stream s (i + 1) fuel).1,
       (watchFuel stream s (i + 1) fuel).2) := by
  simp [watchFuel, h, hs]

/-- Running the loop through a block of non-terminal poll results `ps`
performs one cycle of events per result and leaves the loop holding the last
polled status, with the poll index advanced past the block. -/
theorem watchFuel_block {E : Type} {stream : Nat → Except E Status}
    (ps : List Status) :
    ∀ (init : Status) (i fuel : Nat), init ≠ terminalStatus →
    (∀ s ∈ ps, s ≠ terminalStatus) →
    (∀ k (h : k < ps.length), stream (i + k) = Except.ok (ps.get ⟨k, h⟩)) →
    watchFuel stream init i (ps.length + fuel) =
      ((ps.map cycleEvents).flatten ++
         (watchFuel stream (ps.getLastD init) (i + ps.length) fuel).1,
       (watchFuel stream (ps.getLastD init) (i + ps.length) fuel).2) := by
  induction ps with
  | nil =>
    intro init i fuel _ _ _
    simp
  | cons p ps ih =>
    intro init i fuel hinit hps hstream
    have hp : stream i = Except.ok p := by
      have := hstream 0 (by simp)
      simpa using this
    have hlen : (p :: ps).length + fuel = (ps.length + fuel) + 1 := by
      simp [List.length_cons]; omega
    rw [hlen, watchFuel_ok (ps.length + fuel) hinit hp]
    have hps' : ∀ s ∈ ps, s ≠ terminalStatus := fun s hs => hps s (List.mem_cons_of_mem p hs)
    have hstream' : ∀ k (h : k < ps.length),
        stream (i + 1 + k) = Except.ok (ps.get ⟨k, h⟩) := by
      intro k h
      have hk : k + 1 < (p :: ps).length := by simp; omega
      have := hstream (k + 1) hk
      have harith : i + (k + 1) = i + 1 + k := by omega
      rw [harith] at this
      simpa using this
    rw [ih p (i + 1) fuel (hps p (List.mem_cons_self p ps)) hps' hstream']
    rw [List.getLastD_cons init p ps]
    have hidx : i + (p :: ps).length = i + 1 + ps.length := by simp; omega
    rw [hidx]
    simp [cycleEvents, List.append_assoc]

/-- A complete successful run: after a block of non-terminal poll results
`ps`, the next poll returns the terminal status; the loop performs one cycle
per poll result — including one for the terminal poll, whose status is also
printed — and then prints the completion line and returns. -/
theorem watchFuel_run {E : Type} {stream : Nat → Except E Status}
    (ps : List Status) (init : Status) (i fuel : Nat)
    (hinit : init ≠ terminalStatus)
    (hps : ∀ s ∈ ps, s ≠ terminalStatus)
    (hstream : ∀ k (h : k < ps.length), stream (i + k) = Except.ok (ps.get ⟨k, h⟩))
    (hlast : stream (i + ps.length) = Except.ok terminalStatus) :
    watchFuel stream init i (ps.length + 2 + fuel) =
      (((ps ++ [terminalStatus]).map cycleEvents).flatten ++ [Event.doneLine],
       some (Except.ok ())) := by
  have hfuel : ps.length + 2 + fuel = ps.length + (fuel + 2) := by omega
  rw [hfuel, watchFuel_block ps init i (fuel + 2) hinit hps hstream]
  have hlastOk : ps.getLastD init ≠ terminalStatus := by
    rcases List.eq_nil_or_concat ps with h | ⟨l, a, h⟩
    · simpa [h] using hinit
    · have ha : a ∈ ps := by simp [h]
      have hl : (l.concat a).getLastD init = a := by
        simp [List.concat_eq_append, List.getLastD_concat]
      rw [h, hl]
      exact hps a ha
  rw [watchFuel_ok (fuel + 1) hlastOk hlast,
      watchFuel_terminal stream (i + ps.length + 1) fuel rfl]
  simp [cycleEvents]

/-- A run aborted by a transport error: after a block of non-terminal poll
results `ps`, the next poll raises `e`; the loop re-raises `e` at once, with
no further poll and no status line for the failing call. -/
theorem watchFuel_raise {E : Type} {stream : Nat → Except E Status}
    (ps : List Status) (init : Status) (i fuel : Nat) (e : E)
    (hinit : init ≠ terminalStatus)
    (hps : ∀ s ∈ ps, s ≠ terminalStatus)
    (hstream : ∀ k (h : k < ps.length), stream (i + k) = Except.ok (ps.get ⟨k, h⟩))
    (herr : stream (i + ps.length) = Except.error e) :
    watchFuel stream init i (ps.length + 1 + fuel) =
      ((ps.map cycleEvents).flatten ++ [Event.jobOp JobOp.getIteration],
       some (Except.error e)) := by
  have hfuel : ps.length + 1 + fuel = ps.length + (fuel + 1) := by omega
  rw [hfuel, watchFuel_block ps init i (fuel + 1) hinit hps hstream]
  have hlastOk : ps.getLastD init ≠ terminalStatus := by
    rcases List.eq_nil_or_concat ps with h | ⟨l, a, h⟩
    · simpa [h] using hinit
    · have ha : a ∈ ps := by simp [h]
      have hl : (l.concat a).getLastD init = a := by
        simp [List.concat_eq_append, List.getLastD_concat]
      rw [h, hl]
      exact hps a ha
  rw [watchFuel_err fuel hlastOk herr]

/-- Each while-body cycle performs exactly one `get_iteration` call. -/
theorem countP_cycle_poll (s : Status) : (cycleEvents s).countP isPoll = 1 := by
  simp [cycleEvents, isPoll, List.countP_cons, List.countP_nil]

/-- Each while-body cycle prints exactly one status line. -/
theorem countP_cycle_statusLine (s : Status) :
    (cycleEvents s).countP isStatusLine = 1 := by
  simp [cycleEvents, isStatusLine, List.countP_cons, List.countP_nil]

/-- Counting over a concatenation of cycles, one hit per cycle. -/
theorem countP_cycles (p : Event → Bool) (c : Nat)
    (hp : ∀ s, (cycleEvents s).countP p = c) (ps : List Status) :
    ((ps.map cycleEvents).flatten).countP p = c * ps.length := by
  induction ps with
  | nil => simp
  | cons q ps ih =>
    simp only [List.map_cons, List.flatten_cons, List.countP_append, hp q, ih,
      List.length_cons]
    ring

/-- The console lines of a concatenation of cycles: each cycle writes its
status followed by " ...". -/
theorem printedLines_cycles (qs : List Status) :
    printedLines ((qs.map cycleEvents).flatten) = qs.map (fun s => s ++ " ...") := by
  induction qs with
  | nil => simp [printedLines]
  | cons q qs ih =>
    simp only [List.map_cons, List.flatten_cons, printedLines, List.filterMap_append]
    rw [show List.filterMap Event.rendered (cycleEvents q) = [q ++ " ..."] from rfl]
    simpa [printedLines] using ih

/-- The scenario poll stream used in concrete witnesses: `get_iteration`
returns "Training", "Training", "Validating", then "Completed" forever. -/
def demoStream : Nat → Except Unit Status :=
  fun n => Except.ok (List.getD ["Training", "Training", "Validating"] n terminalStatus)

/-- A poll stream whose first call returns "Training" and whose second call
raises a transport error. -/
def errStream : Nat → Except Unit Status :=
  fun n => if n = 0 then Except.ok "Training" else Except.error ()

/-- A poll stream that always returns the terminal status "Completed". -/
def doneStream : Nat → Except Unit Status :=
  fun _ => Except.ok terminalStatus

/-- C1 (amended): for every poll sequence `ps ++ ["Completed"]` whose earlier
elements are non-terminal, the watch loop of `Train_Model` returns after
exactly that many `get_iteration` calls and prints exactly one status line
per poll result — including one for the terminal result, since line 151
prints the polled status before the guard is re-checked. -/
theorem trainModel_poll_and_line_counts {E : Type} (stream : Nat → Except E Status)
    (ps : List Status) (init : Status) (i fuel : Nat)
    (hinit : init ≠ terminalStatus)
    (hps : ∀ s ∈ ps, s ≠ terminalStatus)
    (hstream : ∀ k (h : k < ps.length), stream (i + k) = Except.ok (ps.get ⟨k, h⟩))
    (hlast : stream (i + ps.length) = Except.ok terminalStatus) :
    (watchFuel stream init i (ps.length + 2 + fuel)).2 = some (Except.ok ()) ∧
    (watchFuel stream init i (ps.length + 2 + fuel)).1.countP isPoll = ps.length + 1 ∧
    (watchFuel stream init i (ps.length + 2 + fuel)).1.countP isStatusLine =
      ps.length + 1 := by
  rw [watchFuel_run ps init i fuel hinit hps hstream hlast]
  have hcp := countP_cycles isPoll 1 countP_cycle_poll (ps ++ [terminalStatus])
  have hcs := countP_cycles isStatusLine 1 countP_cycle_statusLine (ps ++ [terminalStatus])
  refine ⟨rfl, ?_, ?_⟩
  · show ((((ps ++ [terminalStatus]).map cycleEvents).flatten ++
        [Event.doneLine]).countP isPoll) = ps.length + 1
    rw [List.countP_append, hcp]
    simp [isPoll, List.countP_cons, List.countP_nil, List.length_append]
  · show ((((ps ++ [terminalStatus]).map cycleEvents).flatten ++
        [Event.doneLine]).countP isStatusLine) = ps.length + 1
    rw [List.countP_append, hcs]
    simp [isStatusLine, List.countP_cons, List.countP_nil, List.length_append]

/-- C1, witness: the spec scenario ["Training", "Training", "Validating",
"Completed"]: 4 polls, 4 status lines, normal return. -/
theorem trainModel_poll_and_line_counts_witness :
    (watchFuel demoStream "Training" 0 5).2 = some (Except.ok ()) ∧
    (watchFuel demoStream "Training" 0 5).1.countP isPoll = 4 ∧
    (watchFuel demoStream "Training" 0 5).1.countP isStatusLine = 4 :=
  trainModel_poll_and_line_counts demoStream ["Training", "Training", "Validating"]
    "Training" 0 0 (by decide) (by decide) (by decide) (by decide)

/-- C1, counterexample to the claim as stated: on the poll sequence
["Training", "Training", "Validating", "Completed"], the loop body prints the
status of the terminal poll result as well (`print(iteration.status, '...')`
runs before the guard is re-checked), so a status line IS printed for the
terminal result. -/
theorem trainModel_terminal_status_line_printed :
    Event.statusLine terminalStatus ∈ (watchFuel demoStream "Training" 0 5).1 := by
  decide

/-- C2: upon observing a polled status `s`, the loop stops (printing only the
completion line, with no further poll) if and only if `s` is "Completed";
every other string — "Failed" included — makes the next action another
`get_iteration` call. -/
theorem trainModel_stop_iff_completed {E : Type} (stream : Nat → Except E Status)
    (s : Status) (i fuel : Nat) :
    (s = terminalStatus →
      watchFuel stream s i (fuel + 1) = ([Event.doneLine], some (Except.ok ()))) ∧
    (s ≠ terminalStatus →
      ∃ t, (watchFuel stream s i (fuel + 1)).1 = Event.jobOp JobOp.getIteration :: t) := by
  constructor
  · intro h
    exact watchFuel_terminal stream i fuel h
  · intro h
    cases hs : stream i with
    | error e => exact ⟨[], by rw [watchFuel_err fuel h hs]⟩
    | ok s2 =>
      refine ⟨Event.statusLine s2 :: Event.sleep 5 ::
        (watchFuel stream s2 (i + 1) fuel).1, ?_⟩
      rw [watchFuel_ok fuel h hs]
      simp [cycleEvents]

/-- C2, witness: the unrecognized status "Failed" is non-terminal and the
loop polls again. -/
theorem trainModel_stop_iff_completed_witness :
    ("Failed" : Status) ≠ terminalStatus ∧
    ∃ t, (watchFuel demoStream "Failed" 0 1).1 = Event.jobOp JobOp.getIteration :: t :=
  ⟨by decide, (trainModel_stop_iff_completed demoStream "Failed" 0 0).2 (by decide)⟩

/-- C3: if polls 1..N-1 return non-terminal statuses and poll N raises a
transport error `e`, the loop re-raises `e` at once: its trace ends at the
N-th `get_iteration` call (no retry), with exactly N-1 status lines printed
and none for call N. Here N = ps.length + 1. -/
theorem trainModel_transport_error {E : Type} (stream : Nat → Except E Status)
    (ps : List Status) (init : Status) (i fuel : Nat) (e : E)
    (hinit : init ≠ terminalStatus)
    (hps : ∀ s ∈ ps, s ≠ terminalStatus)
    (hstream : ∀ k (h : k < ps.length), stream (i + k) = Except.ok (ps.get ⟨k, h⟩))
    (herr : stream (i + ps.length) = Except.error e) :
    watchFuel stream init i (ps.length + 1 + fuel) =
      ((ps.map cycleEvents).flatten ++ [Event.jobOp JobOp.getIteration],
       some (Except.error e)) ∧
    (watchFuel stream init i (ps.length + 1 + fuel)).1.countP isPoll = ps.length + 1 ∧
    (watchFuel stream init i (ps.length + 1 + fuel)).1.countP isStatusLine =
      ps.length := by
  have h := watchFuel_raise ps init i fuel e hinit hps hstream herr
  have hcp := countP_cycles isPoll 1 countP_cycle_poll ps
  have hcs := countP_cycles isStatusLine 1 countP_cycle_statusLine ps
  refine ⟨h, ?_, ?_⟩ <;> rw [h]
  · show (((ps.map cycleEvents).flatten ++
        [Event.jobOp JobOp.getIteration]).countP isPoll) = ps.length + 1
    rw [List.countP_append, hcp]
    simp [isPoll, List.countP_cons, List.countP_nil]
  · show (((ps.map cycleEvents).flatten ++
        [Event.jobOp JobOp.getIteration]).countP isStatusLine) = ps.length
    rw [List.countP_append, hcs]
    simp [isStatusLine, List.countP_cons, List.countP_nil]

/-- C3, witness: the spec scenario ["Training", TransportError]: the error of
the second poll is re-raised, after one status line and two poll calls. -/
theorem trainModel_transport_error_witness :
    watchFuel errStream "Training" 0 2 =
      (((["Training"]).map cycleEvents).flatten ++ [Event.jobOp JobOp.getIteration],
       some (Except.error ())) ∧
    (watchFuel errStream "Training" 0 2).1.countP isPoll = 2 ∧
    (watchFuel errStream "Training" 0 2).1.countP isStatusLine = 1 :=
  trainModel_transport_error errStream ["Training"] "Training" 0 0 ()
    (by decide) (by decide) (by decide) (by decide)

/-- C4: when the very first poll returns "Completed", the loop returns after
that single poll, printing zero non-terminal status lines and exactly one
completion line "Model trained!" (the status "Completed" itself is echoed by
line 151, which is not a non-terminal status line). -/
theorem trainModel_first_poll_completed {E : Type} (stream : Nat → Except E Status)
    (init : Status) (i fuel : Nat)
    (hinit : init ≠ terminalStatus)
    (h1 : stream i = Except.ok terminalStatus) :
    watchFuel stream init i (2 + fuel) =
      ([Event.jobOp JobOp.getIteration, Event.statusLine terminalStatus,
        Event.sleep 5, Event.doneLine], some (Except.ok ())) ∧
    (watchFuel stream init i (2 + fuel)).1.countP isPoll = 1 ∧
    (watchFuel stream init i (2 + fuel)).1.countP isNonTerminalStatusLine = 0 ∧
    (watchFuel stream init i (2 + fuel)).1.countP isDoneLine = 1 := by
  have h := watchFuel_run [] init i fuel hinit (by simp) (by simp) (by simpa using h1)
  simp only [List.nil_append, List.map_cons, List.map_nil, List.flatten_cons,
    List.flatten_nil, List.append_nil, List.length_nil] at h
  have h' : watchFuel stream init i (2 + fuel) =
      ([Event.jobOp JobOp.getIteration, Event.statusLine terminalStatus,
        Event.sleep 5, Event.doneLine], some (Except.ok ())) := by
    rw [show 2 + fuel = 0 + 2 + fuel by omega]
    simpa [cycleEvents] using h
  refine ⟨h', ?_, ?_, ?_⟩ <;>
    simp [h', isPoll, isNonTerminalStatusLine, isDoneLine, terminalStatus,
      List.countP_cons, List.countP_nil]

/-- C4, witness: a stream whose first poll already reports "Completed". -/
theorem trainModel_first_poll_completed_witness :
    watchFuel doneStream "Training" 0 2 =
      ([Event.jobOp JobOp.getIteration, Event.statusLine terminalStatus,
        Event.sleep 5, Event.doneLine], some (Except.ok ())) ∧
    (watchFuel doneStream "Training" 0 2).1.countP isPoll = 1 ∧
    (watchFuel doneStream "Training" 0 2).1.countP isNonTerminalStatusLine = 0 ∧
    (watchFuel doneStream "Training" 0 2).1.countP isDoneLine = 1 :=
  trainModel_first_poll_completed doneStream "Training" 0 0 (by decide) (by decide)

/-- C5: the console output of the watch loop is exactly one line per poll
cycle — the polled status followed by " ..." — and one final line
"Model trained!" once the terminal status is reached. -/
theorem trainModel_console_output {E : Type} (stream : Nat → Except E Status)
    (ps : List Status) (init : Status) (i fuel : Nat)
    (hinit : init ≠ terminalStatus)
    (hps : ∀ s ∈ ps, s ≠ terminalStatus)
    (hstream : ∀ k (h : k < ps.length), stream (i + k) = Except.ok (ps.get ⟨k, h⟩))
    (hlast : stream (i + ps.length) = Except.ok terminalStatus) :
    printedLines (watchFuel stream init i (ps.length + 2 + fuel)).1 =
      (ps ++ [terminalStatus]).map (fun s => s ++ " ...") ++ ["Model trained!"] := by
  rw [watchFuel_run ps init i fuel hinit hps hstream hlast]
  have hp := printedLines_cycles (ps ++ [terminalStatus])
  show printedLines (((ps ++ [terminalStatus]).map cycleEvents).flatten ++
    [Event.doneLine]) = _
  simp only [printedLines, List.filterMap_append] at hp ⊢
  rw [hp]
  rfl

/-- C5, witness: the scenario stream prints "Training ...", "Training ...",
"Validating ...", "Completed ...", then "Model trained!". -/
theorem trainModel_console_output_witness :
    printedLines (watchFuel demoStream "Training" 0 5).1 =
      ["Training ...", "Training ...", "Validating ...", "Completed ...",
       "Model trained!"] :=
  (trainModel_console_output demoStream ["Training", "Training", "Validating"]
    "Training" 0 0 (by decide) (by decide) (by decide) (by decide)).trans (by decide)

/-- If no poll ever returns the terminal status, the loop never finishes:
whatever the fuel, the outcome is still pending. -/
theorem watchFuel_diverges (stream : Nat → Status) :
    ∀ (fuel : Nat) (init : Status) (i : Nat), init ≠ terminalStatus →
    (∀ k, stream (i + k) ≠ terminalStatus) →
    (watchFuel (fun n => (Except.ok (stream n) : Except Unit Status)) init i fuel).2 =
      none := by
  intro fuel
  induction fuel with
  | zero =>
    intro init i _ _
    rfl
  | succ fuel ih =>
    intro init i hinit hnever
    rw [watchFuel_ok fuel hinit rfl]
    have h0 : stream i ≠ terminalStatus := by
      have := hnever 0
      simpa using this
    have hshift : ∀ k, stream (i + 1 + k) ≠ terminalStatus := by
      intro k
      have := hnever (k + 1)
      have harith : i + (k + 1) = i + 1 + k := by omega
      rwa [harith] at this
    exact ih (stream i) (i + 1) h0 hshift

/-- If the poll at offset `k` returns the terminal status, the loop finishes
within `k + 2` steps (well-founded on the position of a terminal poll). -/
theorem watchFuel_converges (stream : Nat → Status) :
    ∀ (k i : Nat) (init : Status), stream (i + k) = terminalStatus →
    (watchFuel (fun n => (Except.ok (stream n) : Except Unit Status)) init i (k + 2)).2 =
      some (Except.ok ()) := by
  intro k
  induction k with
  | zero =>
    intro i init h
    by_cases hc : init = terminalStatus
    · rw [watchFuel_terminal _ i 1 hc]
    · rw [watchFuel_ok 1 hc rfl]
      have hs : stream i = terminalStatus := by simpa using h
      rw [watchFuel_terminal _ (i + 1) 0 hs]
  | succ k ih =>
    intro i init h
    by_cases hc : init = terminalStatus
    · rw [watchFuel_terminal _ i (k + 2) hc]
    · rw [watchFuel_ok (k + 2) hc rfl]
      have h' : stream (i + 1 + k) = terminalStatus := by
        have harith : i + (k + 1) = i + 1 + k := by omega
        rwa [harith] at h
      exact ih (i + 1) (stream i) h'

/-- C6: started on a non-terminal initial status, the watch loop (as a
function of the error-free poll stream) terminates for some fuel if and only
if some poll eventually returns "Completed"; with no iteration bound, a
stream never yielding "Completed" leaves the loop polling forever. -/
theorem trainModel_terminates_iff_eventually_completed (stream : Nat → Status)
    (init : Status) (i : Nat) (hinit : init ≠ terminalStatus) :
    (∃ fuel, ((watchFuel (fun n => (Except.ok (stream n) : Except Unit Status))
        init i fuel).2).isSome) ↔
    ∃ k, stream (i + k) = terminalStatus := by
  constructor
  · intro hterm
    by_contra hnever
    push_neg at hnever
    rcases hterm with ⟨fuel, hfuel⟩
    rw [watchFuel_diverges stream fuel init i hinit hnever] at hfuel
    simp at hfuel
  · rintro ⟨k, hk⟩
    exact ⟨k + 2, by rw [watchFuel_converges stream k i init hk]; rfl⟩

/-- C6, witness: a constant "Training" stream never terminates (outcome
pending at fuel 5), while the scenario stream terminates because its poll
at offset 3 is "Completed". -/
theorem trainModel_terminates_iff_eventually_completed_witness :
    (¬ ∃ fuel, ((watchFuel (fun n => (Except.ok ((fun _ => "Training") n) :
        Except Unit Status)) "Training" 0 fuel).2).isSome) ∧
    (∃ fuel, ((watchFuel (fun n => (Except.ok
        ((fun m => List.getD ["Training", "Training", "Validating"] m terminalStatus) n) :
        Except Unit Status)) "Training" 0 fuel).2).isSome) :=
  ⟨fun h => by
      rcases (trainModel_terminates_iff_eventually_completed
        (fun _ => "Training") "Training" 0 (by decide)).1 h with ⟨k, hk⟩
      exact absurd hk (by decide),
   (trainModel_terminates_iff_eventually_completed
      (fun m => List.getD ["Training", "Training", "Validating"] m terminalStatus)
      "Training" 0 (by decide)).2 ⟨3, by decide⟩⟩

/-- C7: every operation the watch loop performs on the remote job is the
read-only status query `get_iteration`; the loop itself never mutates the
job. -/
theorem trainModel_watch_readonly {E : Type} (stream : Nat → Except E Status) :
    ∀ (fuel : Nat) (init : Status) (i : Nat) (op : JobOp),
    Event.jobOp op ∈ (watchFuel stream init i fuel).1 →
    op = JobOp.getIteration ∧ op.isReadOnly = true := by
  intro fuel
  induction fuel with
  | zero =>
    intro init i op h
    simp [watchFuel] at h
  | succ fuel ih =>
    intro init i op h
    by_cases hc : init = terminalStatus
    · rw [watchFuel_terminal stream i fuel hc] at h
      simp at h
    · cases hs : stream i with
      | error e =>
        rw [watchFuel_err fuel hc hs] at h
        simp at h
        exact ⟨h, by rw [h]; rfl⟩
      | ok s =>
        rw [watchFuel_ok fuel hc hs] at h
        simp [cycleEvents] at h
        rcases h with h | h
        · exact ⟨h, by rw [h]; rfl⟩
        · exact ih s (i + 1) op h

/-- C7, witness: the one job operation in a concrete one-cycle trace is
`get_iteration`, which is read-only. -/
theorem trainModel_watch_readonly_witness :
    JobOp.getIteration = JobOp.getIteration ∧
    JobOp.isReadOnly JobOp.getIteration = true :=
  trainModel_watch_readonly demoStream 1 "Training" 0 JobOp.getIteration (by decide)

/-- C8: in any watch-loop trace, two status lines are always separated by a
`time.sleep(5)` event: the loop sleeps exactly the fixed 5-second interval
between consecutive poll cycles, so consecutive status prints are at least
the interval apart. -/
theorem trainModel_sleep_between_status_lines {E : Type} (stream : Nat → Except E Status) :
    ∀ (fuel : Nat) (init : Status) (i : Nat) (j k : Nat) (a b : Status),
    j < k →
    (watchFuel stream init i fuel).1.get? j = some (Event.statusLine a) →
    (watchFuel stream init i fuel).1.get? k = some (Event.statusLine b) →
    ∃ m, j < m ∧ m < k ∧
      (watchFuel stream init i fuel).1.get? m = some (Event.sleep 5) := by
  intro fuel
  induction fuel with
  | zero =>
    intro init i j k a b hjk hj hk
    simp [watchFuel] at hj
  | succ fuel ih =>
    intro init i j k a b hjk hj hk
    by_cases hc : init = terminalStatus
    · rw [watchFuel_terminal stream i fuel hc] at hj hk
      rcases k with _ | k
      · omega
      · simp [List.get?] at hk
    · cases hs : stream i with
      | error e =>
        rw [watchFuel_err fuel hc hs] at hj
        rcases j with _ | j
        · simp [List.get?] at hj
        · simp [List.get?] at hj
      | ok s =>
        rw [watchFuel_ok fuel hc hs] at hj hk ⊢
        simp only [cycleEvents, List.cons_append, List.nil_append] at hj hk ⊢
        rcases j with _ | _ | _ | j
        · simp [List.get?] at hj
        · rcases k with _ | _ | _ | k
          · omega
          · omega
          · simp [List.get?] at hk
          · exact ⟨2, by omega, by omega, by simp [List.get?]⟩
        · simp [List.get?] at hj
        · rcases k with _ | _ | _ | k
          · omega
          · omega
          · omega
          · have hj' : (watchFuel stream s (i + 1) fuel).1.get? j =
                some (Event.statusLine a) := by simpa [List.get?] using hj
            have hk' : (watchFuel stream s (i + 1) fuel).1.get? k =
                some (Event.statusLine b) := by simpa [List.get?] using hk
            rcases ih s (i + 1) j k a b (by omega) hj' hk' with ⟨m, hm1, hm2, hm3⟩
            exact ⟨m + 3, by omega, by omega, by simpa [List.get?] using hm3⟩

/-- C8, witness: in the scenario trace, the status lines at positions 1 and 4
are separated by the sleep event at position 2. -/
theorem trainModel_sleep_between_status_lines_witness :
    ∃ m, 1 < m ∧ m < 4 ∧
      (watchFuel demoStream "Training" 0 5).1.get? m = some (Event.sleep 5) :=
  trainModel_sleep_between_status_lines demoStream 5 "Training" 0 1 4
    "Training" "Training" (by decide) (by decide) (by decide)

/-- A prediction returned by `classify_image` in test-classifier.py: a tag
name and a probability (a number in [0,1], embedded as a rational). -/
structure ClassPrediction where
  tag_name : String
  probability : ℚ
deriving DecidableEq

/-- A normalized bounding box as returned by `detect_image`
(test-detector.py): coordinates in [0,1] relative to the image size. -/
structure BoundingBox where
  left : ℚ
  top : ℚ
  width : ℚ
  height : ℚ
deriving DecidableEq

/-- A prediction returned by `detect_image` in test-detector.py. -/
structure DetPrediction where
  tag_name : String
  probability : ℚ
  bounding_box : BoundingBox
deriving DecidableEq

/-- The filter of test-classifier.py line 65:
`if prediction.probability > 0.5:`. -/
def classifierSelected (predictions : List ClassPrediction) : List ClassPrediction :=
  predictions.filter fun p => (0.5 : ℚ) < p.probability

/-- The lines printed by the classifier loop (lines 61-68): one line naming
the predicted tag per prediction passing the filter (the surrounding image
filename and the percentage formatting are elided). -/
def classifierPrintedTags (predictions : List ClassPrediction) : List String :=
  (classifierSelected predictions).map ClassPrediction.tag_name

/-- The filter of test-detector.py line 77 (and line 139):
`if (prediction.probability*100) > 50:`. -/
def detectorSelected (predictions : List DetPrediction) : List DetPrediction :=
  predictions.filter fun p => (50 : ℚ) < p.probability * 100

/-- The tag names printed by the detector loop (lines 74-79). -/
def detectorPrintedTags (predictions : List DetPrediction) : List String :=
  (detectorSelected predictions).map DetPrediction.tag_name

/-- The pixel-space corner points of a bounding box drawn by
`save_tagged_images` (lines 144-158): normalized coordinates scaled by the
image width `w` and height `h`. -/
def boxPoints (w h : ℚ) (bb : BoundingBox) : List (ℚ × ℚ) :=
  [(bb.left * w, bb.top * h),
   (bb.left * w + bb.width * w, bb.top * h),
   (bb.left * w + bb.width * w, bb.top * h + bb.height * h),
   (bb.left * w, bb.top * h + bb.height * h),
   (bb.left * w, bb.top * h)]

/-- The rectangles drawn by `save_tagged_images` (lines 136-161): one
`draw.line(points, ...)` call per detected object passing the same
probability filter as the print loop. -/
def save_tagged_images (w h : ℚ) (detected_objects : List DetPrediction) :
    List (List (ℚ × ℚ)) :=
  (detected_objects.filter fun p => (50 : ℚ) < p.probability * 100).map
    fun p => boxPoints w h p.bounding_box

/-- C9: prediction filtering is strict at probability 1/2: a classification
prediction is printed, and a detection prediction is printed and has its
bounding box drawn, if and only if its probability is strictly greater than
0.5; a prediction with probability exactly 0.5 produces no output. -/
theorem prediction_filter_strict (w h : ℚ)
    (cps : List ClassPrediction) (dps : List DetPrediction)
    (p : ClassPrediction) (q : DetPrediction) :
    (p ∈ classifierSelected cps ↔ p ∈ cps ∧ (1 / 2 : ℚ) < p.probability) ∧
    (q ∈ detectorSelected dps ↔ q ∈ dps ∧ (1 / 2 : ℚ) < q.probability) ∧
    (p.probability = 1 / 2 → p ∉ classifierSelected cps) ∧
    (q.probability = 1 / 2 → q ∉ detectorSelected dps) ∧
    classifierPrintedTags cps = (classifierSelected cps).map ClassPrediction.tag_name ∧
    detectorPrintedTags dps = (detectorSelected dps).map DetPrediction.tag_name ∧
    save_tagged_images w h dps =
      (detectorSelected dps).map (fun r => boxPoints w h r.bounding_box) := by
  have hc : p ∈ classifierSelected cps ↔ p ∈ cps ∧ (1 / 2 : ℚ) < p.probability := by
    simp only [classifierSelected, List.mem_filter, decide_eq_true_eq]
    constructor
    · rintro ⟨hmem, hlt⟩
      exact ⟨hmem, by linarith⟩
    · rintro ⟨hmem, hlt⟩
      exact ⟨hmem, by linarith⟩
  have hd : q ∈ detectorSelected dps ↔ q ∈ dps ∧ (1 / 2 : ℚ) < q.probability := by
    simp only [detectorSelected, List.mem_filter, decide_eq_true_eq]
    constructor
    · rintro ⟨hmem, hlt⟩
      exact ⟨hmem, by linarith⟩
    · rintro ⟨hmem, hlt⟩
      exact ⟨hmem, by linarith⟩
  refine ⟨hc, hd, ?_, ?_, rfl, rfl, rfl⟩
  · intro hp hmem
    have := (hc.1 hmem).2
    rw [hp] at this
    exact lt_irrefl _ this
  · intro hq hmem
    have := (hd.1 hmem).2
    rw [hq] at this
    exact lt_irrefl _ this

/-- C9, witness: a prediction with probability exactly 1/2 is not selected
by either filter, while one with probability 3/4 is. -/
theorem prediction_filter_strict_witness :
    ((⟨"apple", 3 / 4⟩ : ClassPrediction) ∈
        classifierSelected [⟨"apple", 3 / 4⟩, ⟨"banana", 1 / 2⟩] ∧
      (1 / 2 : ℚ) < (3 / 4 : ℚ)) ∧
    ((⟨"banana", 1 / 2⟩ : ClassPrediction) ∉
        classifierSelected [⟨"apple", 3 / 4⟩, ⟨"banana", 1 / 2⟩]) ∧
    ((⟨"orange", 1 / 2, ⟨0, 0, 1, 1⟩⟩ : DetPrediction) ∉
        detectorSelected [⟨"orange", 1 / 2, ⟨0, 0, 1, 1⟩⟩]) :=
  ⟨⟨(prediction_filter_strict 1 1 [⟨"apple", 3 / 4⟩, ⟨"banana", 1 / 2⟩] []
        ⟨"apple", 3 / 4⟩ ⟨"orange", 1 / 2, ⟨0, 0, 1, 1⟩⟩).1.2
      ⟨List.mem_cons_self _ _, by norm_num⟩, by norm_num⟩,
   (prediction_filter_strict 1 1 [⟨"apple", 3 / 4⟩, ⟨"banana", 1 / 2⟩] []
        ⟨"banana", 1 / 2⟩ ⟨"orange", 1 / 2, ⟨0, 0, 1, 1⟩⟩).2.2.1 rfl,
   (prediction_filter_strict 1 1 [] [⟨"orange", 1 / 2, ⟨0, 0, 1, 1⟩⟩]
        ⟨"banana", 1 / 2⟩ ⟨"orange", 1 / 2, ⟨0, 0, 1, 1⟩⟩).2.2.2.1 rfl⟩

/-- A tag defined in the Custom Vision project, as returned by `get_tags`
(add-tagged-images.py line 108). -/
structure ProjectTag where
  name : String
  id : String
deriving DecidableEq

/-- One entry of `image['tags']` in tagged-images.json: a tag name and a
normalized bounding box. -/
structure TaggedRegionSpec where
  tag : String
  left : ℚ
  top : ℚ
  width : ℚ
  height : ℚ
deriving DecidableEq

/-- One entry of `tagged_images['files']` in tagged-images.json. -/
structure TaggedImageSpec where
  filename : String
  tags : List TaggedRegionSpec
deriving DecidableEq

/-- A `Region` passed to the Custom Vision upload
(add-tagged-images.py lines 147-151). -/
structure Region where
  tag_id : String
  left : ℚ
  top : ℚ
  width : ℚ
  height : ℚ
deriving DecidableEq

/-- An `ImageFileCreateEntry` (lines 157-159): image filename, the bytes read
from the image file (abstracted as the value of `readFile` on the filename),
and the tagged regions. -/
structure ImageFileCreateEntry where
  name : String
  contents : String
  regions : List Region
deriving DecidableEq

/-- Line 140: `next(t for t in tags if t.name == tag_name).id` — the id of
the first project tag whose name matches, or a StopIteration error
(`Except.error ()`) when no project tag matches. -/
def lookupTagId (tags : List ProjectTag) (tag_name : String) : Except Unit String :=
  match tags.find? (fun t => t.name = tag_name) with
  | some t => Except.ok t.id
  | none => Except.error ()

/-- The inner loop of Upload_Images (lines 132-151): build the `Region` list
of one image, stopping with StopIteration at the first JSON tag name that
matches no project tag. -/
def buildRegions (tags : List ProjectTag) :
    List TaggedRegionSpec → Except Unit (List Region)
  | [] => Except.ok []
  | t :: rest => do
    let tid ← lookupTagId tags t.tag
    let rs ← buildRegions tags rest
    Except.ok (Region.mk tid t.left t.top t.width t.height :: rs)

/-- The outer loop of Upload_Images (lines 122-159): build the
`tagged_images_with_regions` batch, one `ImageFileCreateEntry` per JSON file
entry, stopping at the first failed tag lookup. -/
def buildEntries (readFile : String → String) (tags : List ProjectTag) :
    List TaggedImageSpec → Except Unit (List ImageFileCreateEntry)
  | [] => Except.ok []
  | img :: rest => do
    let rs ← buildRegions tags img.tags
    let es ← buildEntries readFile tags rest
    Except.ok (ImageFileCreateEntry.mk img.filename (readFile img.filename) rs :: es)

/-- The `create_images_from_files` batch-upload calls Upload_Images performs
(line 165): the single batch call when every lookup succeeded, and none at
all when a lookup raised StopIteration before that line was reached. -/
def uploadCalls (readFile : String → String) (tags : List ProjectTag)
    (files : List TaggedImageSpec) : List (List ImageFileCreateEntry) :=
  match buildEntries readFile tags files with
  | Except.ok entries => [entries]
  | Except.error _ => []

/-- Building the regions of an image fails whenever one of its JSON tag names
matches no project tag. -/
theorem buildRegions_error (tags : List ProjectTag) (t : TaggedRegionSpec) :
    ∀ (ts : List TaggedRegionSpec), t ∈ ts →
    (∀ pt ∈ tags, pt.name ≠ t.tag) →
    buildRegions tags ts = Except.error () := by
  intro ts
  induction ts with
  | nil =>
    intro h
    simp at h
  | cons hd rest ih =>
    intro hmem hmiss
    rcases List.mem_cons.1 hmem with heq | hrest
    · have hfind : tags.find? (fun pt => pt.name = t.tag) = none := by
        rw [List.find?_eq_none]
        intro pt hpt
        simpa using hmiss pt hpt
      subst heq
      simp only [buildRegions, lookupTagId, hfind]
      rfl
    · cases hl : lookupTagId tags hd.tag with
      | error u =>
        simp only [buildRegions, hl]
        rfl
      | ok tid =>
        simp only [buildRegions, hl, ih hrest hmiss]
        rfl

/-- Building the batch fails whenever some file's regions fail to build. -/
theorem buildEntries_error (readFile : String → String) (tags : List ProjectTag)
    (f : TaggedImageSpec) :
    ∀ (files : List TaggedImageSpec), f ∈ files →
    buildRegions tags f.tags = Except.error () →
    buildEntries readFile tags files = Except.error () := by
  intro files
  induction files with
  | nil =>
    intro h
    simp at h
  | cons hd rest ih =>
    intro hmem herr
    rcases List.mem_cons.1 hmem with heq | hrest
    · subst heq
      simp only [buildEntries, herr]
      rfl
    · cases hr : buildRegions tags hd.tags with
      | error u =>
        simp only [buildEntries, hr]
        rfl
      | ok rs =>
        simp only [buildEntries, hr, ih hrest herr]
        rfl

/-- C10: if any tag name appearing in tagged-images.json matches no tag
defined in the Custom Vision project, the `next(...)` lookup of Upload_Images
raises StopIteration before the single `create_images_from_files` call is
reached, so no batch-upload call is performed and no images are uploaded at
all. -/
theorem uploadImages_atomic_on_unknown_tag (readFile : String → String)
    (tags : List ProjectTag) (files : List TaggedImageSpec)
    (f : TaggedImageSpec) (t : TaggedRegionSpec)
    (hf : f ∈ files) (ht : t ∈ f.tags)
    (hmiss : ∀ pt ∈ tags, pt.name ≠ t.tag) :
    buildEntries readFile tags files = Except.error () ∧
    uploadCalls readFile tags files = [] := by
  have herr : buildRegions tags f.tags = Except.error () :=
    buildRegions_error tags t f.tags ht hmiss
  have hent : buildEntries readFile tags files = Except.error () :=
    buildEntries_error readFile tags f files hf herr
  exact ⟨hent, by simp [uploadCalls, hent]⟩

/-- C10, witness: a JSON file tagged "apple" against a project that defines
only the tag "orange": the batch is never uploaded. -/
theorem uploadImages_atomic_on_unknown_tag_witness :
    buildEntries (fun _ => "bytes") [ProjectTag.mk "orange" "id1"]
      [TaggedImageSpec.mk "image1.jpg" [TaggedRegionSpec.mk "apple" 0 0 1 1]] =
      Except.error () ∧
    uploadCalls (fun _ => "bytes") [ProjectTag.mk "orange" "id1"]
      [TaggedImageSpec.mk "image1.jpg" [TaggedRegionSpec.mk "apple" 0 0 1 1]] = [] :=
  uploadImages_atomic_on_unknown_tag (fun _ => "bytes")
    [ProjectTag.mk "orange" "id1"]
    [TaggedImageSpec.mk "image1.jpg" [TaggedRegionSpec.mk "apple" 0 0 1 1]]
    (TaggedImageSpec.mk "image1.jpg" [TaggedRegionSpec.mk "apple" 0 0 1 1])
    (TaggedRegionSpec.mk "apple" 0 0 1 1)
    (List.mem_cons_self _ _) (List.mem_cons_self _ _)
    (by
      intro pt hpt
      simp only [List.mem_cons, List.not_mem_nil, or_false] at hpt
      subst hpt
      decide)

end MSLearn
